import Mathlib

/-!
Verification of the cradio terminal radio client.

This file gives a shallow embedding, in Lean, of the parts of the program
that the specification talks about:

* `src/favorites.rs` — the favorites persistence layer (blank-identifier
  filtering, last-write-wins de-duplication, case-insensitive sorting,
  missing-file and malformed-JSON handling);
* `src/app.rs` — the `App` state aggregate and its pure mutation methods;
* `src/api.rs` — the bounded-concurrency bulk fetch
  `fetch_stations_by_uuids` (result partitioning, and the semaphore that
  caps in-flight requests at 8).

Machine integers (`u32` fields of `App` and `SearchParams`) are modelled as
`Nat` with an explicit `% 2 ^ 32` wherever the Rust code performs arithmetic
that can overflow. Rust `String` is modelled as Lean `String`; byte-wise
`cmp` on UTF-8 strings coincides with lexicographic comparison of the
code-point list, which is how comparisons are embedded. `to_lowercase` /
`to_uppercase` are modelled per-character (`Char.toLower` / `Char.toUpper`),
which agrees with Rust on the ASCII range used by the comparator.
-/

namespace Cradio

/-! ### String helpers shared by the embedded modules -/

/-- Code-point-wise lowercasing, modelling Rust `str::to_lowercase`. -/
def lowerStr (s : String) : String := ⟨s.data.map Char.toLower⟩

/-- Code-point-wise uppercasing, modelling Rust `str::to_uppercase`. -/
def upperStr (s : String) : String := ⟨s.data.map Char.toUpper⟩

/-- Characters with the Unicode `White_Space` property, as used by Rust
`char::is_whitespace` (and hence `str::trim`). -/
def isRustWhitespace (c : Char) : Bool :=
  c.toNat = 0x09 || c.toNat = 0x0A || c.toNat = 0x0B || c.toNat = 0x0C ||
  c.toNat = 0x0D || c.toNat = 0x20 || c.toNat = 0x85 || c.toNat = 0xA0 ||
  c.toNat = 0x1680 || (0x2000 ≤ c.toNat && c.toNat ≤ 0x200A) ||
  c.toNat = 0x2028 || c.toNat = 0x2029 || c.toNat = 0x202F ||
  c.toNat = 0x205F || c.toNat = 0x3000

/-- Rust `str::trim`: strip leading and trailing whitespace. -/
def rustTrim (s : String) : String :=
  ⟨((s.data.dropWhile isRustWhitespace).reverse.dropWhile isRustWhitespace).reverse⟩

/-- Boolean strict comparison of strings, modelling Rust `String::cmp`
returning `Ordering::Less` (byte order on UTF-8 equals code-point order). -/
def strLtb (a b : String) : Bool := decide (a.data < b.data)

/-! ### Data model (`src/api.rs`, `src/favorites.rs`) -/

/-- Remote-directory record, from `Station` in `src/api.rs`. -/
structure Station where
  stationuuid : String
  name : String
  url : String
  url_resolved : String
  tags : String
  country_code : String
  language : String
  bitrate : Nat
deriving DecidableEq, Repr

/-- Search filter and paging request shape, from `SearchParams` in
`src/api.rs`. `limit` and `offset` are `u32` in the source. -/
structure SearchParams where
  name : String
  tags : String
  country : String
  language : String
  limit : Nat
  offset : Nat
deriving DecidableEq, Repr

/-- The `Default` impl for `SearchParams` in `src/api.rs`. -/
def SearchParams.default : SearchParams :=
  { name := "", tags := "", country := "", language := "", limit := 50, offset := 0 }

/-- Persisted favorite record, from `FavoriteEntry` in `src/favorites.rs`. -/
structure FavoriteEntry where
  stationuuid : String
  name : String
  url : String
deriving DecidableEq, Repr

/-! ### Favorites persistence (`src/favorites.rs`) -/

/-- The guard `entry.stationuuid.trim().is_empty()` used by both
`load_favorites_from_path` and `save_favorites_to_path`. -/
def blankUuid (e : FavoriteEntry) : Bool := (rustTrim e.stationuuid).data.isEmpty

/-- Overwrite the name and url of the first entry carrying `u`, modelling
`deduped.iter_mut().find(..)` followed by the two field assignments. -/
def updateFirst (u name url : String) : List FavoriteEntry → List FavoriteEntry
  | [] => []
  | f :: rest =>
    if f.stationuuid = u then { f with name := name, url := url } :: rest
    else f :: updateFirst u name url rest

/-- Test used by the de-duplication loops: does the accumulator already hold
an entry for this identifier? -/
def hasUuid (l : List FavoriteEntry) (u : String) : Bool :=
  l.any fun f => f.stationuuid = u

/-- One iteration of the de-duplication loop shared (verbatim in the source)
by `load_favorites_from_path` and `save_favorites_to_path`: skip
blank-identifier entries, update the first existing entry in place, else
push at the end. -/
def dedupStep (acc : List FavoriteEntry) (entry : FavoriteEntry) : List FavoriteEntry :=
  if blankUuid entry then acc
  else if hasUuid acc entry.stationuuid then
    updateFirst entry.stationuuid entry.name entry.url acc
  else acc ++ [entry]

/-- The whole `for entry in entries { .. }` de-duplication loop. -/
def dedupFavorites (entries : List FavoriteEntry) : List FavoriteEntry :=
  entries.foldl dedupStep []

/-- The sort comparator
`a.name.to_lowercase().cmp(&b.name.to_lowercase()).then_with(|| a.stationuuid.cmp(&b.stationuuid))`,
turned into the "not Greater" Boolean that a stable sort consumes. -/
def favCmpLe (a b : FavoriteEntry) : Bool :=
  strLtb (lowerStr a.name) (lowerStr b.name) ||
    (decide (lowerStr a.name = lowerStr b.name) && !strLtb b.stationuuid a.stationuuid)

/-- Rust `Vec::sort_by` (a stable sort) with the comparator above, modelled
by the stable `List.mergeSort`. -/
def sortFavorites (l : List FavoriteEntry) : List FavoriteEntry :=
  l.mergeSort favCmpLe

/-- The filter + de-duplicate + sort pipeline that both
`load_favorites_from_path` and `save_favorites_to_path` apply. -/
def processFavorites (entries : List FavoriteEntry) : List FavoriteEntry :=
  sortFavorites (dedupFavorites entries)

/-- Abstract state of the favorites file at a path. serde-JSON
encode/decode of a `Vec<FavoriteEntry>` is taken as a faithful round trip,
so a well-formed file is represented by the entry list it decodes to;
`invalidJson` covers content that fails to parse, `unreadable` an
`fs::read_to_string` failure. -/
inductive FileState where
  | absent
  | unreadable
  | invalidJson
  | validJson (entries : List FavoriteEntry)
deriving DecidableEq

/-- Embeds `load_favorites_from_path` from `src/favorites.rs`: a missing
file yields `Ok(vec![])`, a read or parse failure yields the corresponding
error string, and a parsed list goes through the filter/dedup/sort
pipeline. -/
def load_favorites_from_path : FileState → Except String (List FavoriteEntry)
  | .absent => .ok []
  | .unreadable => .error "Failed to read favorites file"
  | .invalidJson => .error "Failed to parse favorites JSON"
  | .validJson entries => .ok (processFavorites entries)

/-- Embeds a successful `save_favorites_to_path` from `src/favorites.rs`:
the file afterwards decodes to the filtered, de-duplicated, sorted list
that the function serializes. -/
def save_favorites_to_path (favorites : List FavoriteEntry) : FileState :=
  .validJson (processFavorites favorites)

/-- Last entry of the input carrying a given identifier (the entry whose
name/url "win" under the last-write-wins de-duplication). -/
def lastEntryFor (entries : List FavoriteEntry) (u : String) : Option FavoriteEntry :=
  (entries.filter fun f => f.stationuuid = u).getLast?

/-! ### Application state (`src/app.rs`) -/

/-- Modulus of the `u32` fields (`page`, `total_pages`, `limit`, `offset`). -/
def U32 : Nat := 2 ^ 32

inductive InputField where
  | nameField
  | tagsField
  | countryField
  | languageField
deriving DecidableEq, Repr

inductive AppMode where
  | normal
  | filtering (f : InputField)
deriving DecidableEq, Repr

inductive StationViewMode where
  | allStations
  | favorites
deriving DecidableEq, Repr

/-- The `App` aggregate from `src/app.rs`. The Rust `HashSet<String>`
`favorite_ids` is modelled as a `Finset String` (unordered, no duplicates);
`u32` fields are `Nat` values below `U32`; `u8 volume` is a `Nat`. -/
structure App where
  stations : List Station
  favorite_stations : List Station
  selected : Nat
  scroll_offset : Nat
  mode : AppMode
  view_mode : StationViewMode
  params : SearchParams
  page : Nat
  total_pages : Nat
  loading : Bool
  favorites_loading : Bool
  error : Option String
  favorites_error : Option String
  current_station : Option Station
  volume : Nat
  favorite_ids : Finset String
  favorites : List FavoriteEntry
  draft_name : String
  draft_tags : String
  draft_country : String
  draft_language : String
deriving DecidableEq

/-- `App::new`. -/
def App.new : App where
  stations := []
  favorite_stations := []
  selected := 0
  scroll_offset := 0
  mode := .normal
  view_mode := .allStations
  params := SearchParams.default
  page := 1
  total_pages := 1
  loading := false
  favorites_loading := false
  error := none
  favorites_error := none
  current_station := none
  volume := 50
  favorite_ids := ∅
  favorites := []
  draft_name := ""
  draft_tags := ""
  draft_country := ""
  draft_language := ""

/-- `App::set_favorites`: replace `favorites` and rebuild `favorite_ids`
as the set of identifiers collected from the new list. -/
def App.set_favorites (app : App) (favorites : List FavoriteEntry) : App :=
  { app with
    favorite_ids := (favorites.map fun f => f.stationuuid).toFinset
    favorites := favorites }

/-- `App::update_params_from_drafts`. -/
def App.update_params_from_drafts (app : App) : App :=
  { app with
    params := { app.params with
      name := rustTrim app.draft_name
      tags := rustTrim app.draft_tags
      country := upperStr (rustTrim app.draft_country)
      language := lowerStr (rustTrim app.draft_language)
      offset := 0 }
    page := 1 }

/-- `App::set_stations`. `stations.len() as u32` truncates, hence the
`% U32` on the count; `self.page + 1` is `u32` addition. -/
def App.set_stations (app : App) (stations : List Station) : App :=
  let count := stations.length % U32
  { app with
    stations := stations
    selected := 0
    scroll_offset := 0
    loading := false
    error := none
    total_pages := if count = app.params.limit then (app.page + 1) % U32 else app.page }

/-- `App::set_favorite_stations`. -/
def App.set_favorite_stations (app : App) (stations : List Station) : App :=
  { app with
    favorite_stations := stations
    favorites_loading := false
    favorites_error := none
    error := none
    selected := 0
    scroll_offset := 0 }

/-- `App::set_error`. -/
def App.set_error (app : App) (err : String) : App :=
  { app with error := some err, loading := false, favorites_loading := false }

/-- `App::set_favorites_error`. -/
def App.set_favorites_error (app : App) (err : String) : App :=
  { app with favorites_error := some err, error := some err, favorites_loading := false }

/-- `App::current_station_list`. -/
def App.current_station_list (app : App) : List Station :=
  match app.view_mode with
  | .allStations => app.stations
  | .favorites => app.favorite_stations

/-- `App::selected_station`. -/
def App.selected_station (app : App) : Option Station :=
  app.current_station_list[app.selected]?

/-- `App::is_favorite`. -/
def App.is_favorite (app : App) (stationuuid : String) : Bool :=
  stationuuid ∈ app.favorite_ids

/-- The add branch of `toggle_favorite_for_selected`: update the first
existing `FavoriteEntry` for the identifier in place, or push a new one. -/
def upsertFavorite (favs : List FavoriteEntry) (s : Station) : List FavoriteEntry :=
  if hasUuid favs s.stationuuid then updateFirst s.stationuuid s.name s.url favs
  else favs ++ [{ stationuuid := s.stationuuid, name := s.name, url := s.url }]

/-- `App::toggle_favorite_for_selected`, returning the mutated state
together with the `Option<bool>` the method returns. -/
def App.toggle_favorite_for_selected (app : App) : App × Option Bool :=
  match app.selected_station with
  | none => (app, none)
  | some station =>
    let app1 : App :=
      if station.stationuuid ∈ app.favorite_ids then
        { app with
          favorite_ids := app.favorite_ids.erase station.stationuuid
          favorites := app.favorites.filter fun fav => fav.stationuuid ≠ station.stationuuid }
      else
        { app with
          favorite_ids := insert station.stationuuid app.favorite_ids
          favorites := upsertFavorite app.favorites station }
    let now_favorite : Bool := ¬ station.stationuuid ∈ app.favorite_ids
    let app2 : App :=
      if app1.view_mode = .favorites ∧ now_favorite = false then
        let favorite_stations :=
          app1.favorite_stations.filter fun s => s.stationuuid ≠ station.stationuuid
        let selected :=
          if favorite_stations.length ≤ app1.selected then favorite_stations.length - 1
          else app1.selected
        let scroll_offset :=
          if selected < app1.scroll_offset then selected else app1.scroll_offset
        { app1 with
          favorite_stations := favorite_stations
          selected := selected
          scroll_offset := scroll_offset }
      else app1
    (app2, some now_favorite)

/-- `App::set_view_mode`. -/
def App.set_view_mode (app : App) (mode : StationViewMode) : App :=
  { app with view_mode := mode, selected := 0, scroll_offset := 0 }

/-- `App::select_next`. -/
def App.select_next (app : App) (visible_height : Nat) : App :=
  let station_count := app.current_station_list.length
  if station_count = 0 then app
  else if app.selected + 1 < station_count then
    let selected := app.selected + 1
    let scroll_offset :=
      if app.scroll_offset + visible_height ≤ selected then app.scroll_offset + 1
      else app.scroll_offset
    { app with selected := selected, scroll_offset := scroll_offset }
  else app

/-- `App::select_prev`. -/
def App.select_prev (app : App) : App :=
  if app.current_station_list.isEmpty then app
  else if 0 < app.selected then
    let selected := app.selected - 1
    let scroll_offset :=
      if selected < app.scroll_offset then selected else app.scroll_offset
    { app with selected := selected, scroll_offset := scroll_offset }
  else app

/-- `App::next_page`. `self.page + 1` is `u32` addition and the derived
offset `(self.page - 1) * self.params.limit` is a `u32` product. -/
def App.next_page (app : App) : App :=
  if app.view_mode ≠ .allStations then app
  else if app.page < app.total_pages then
    let page := (app.page + 1) % U32
    { app with
      page := page
      params := { app.params with offset := (page - 1) * app.params.limit % U32 }
      loading := true }
  else app

/-- `App::prev_page`. -/
def App.prev_page (app : App) : App :=
  if app.view_mode ≠ .allStations then app
  else if 1 < app.page then
    let page := app.page - 1
    { app with
      page := page
      params := { app.params with offset := (page - 1) * app.params.limit % U32 }
      loading := true }
  else app

/-- `App::next_field`. -/
def App.next_field (app : App) : App :=
  { app with
    mode :=
      match app.mode with
      | .filtering .nameField => .filtering .tagsField
      | .filtering .tagsField => .filtering .countryField
      | .filtering .countryField => .filtering .languageField
      | .filtering .languageField => .filtering .nameField
      | .normal => .normal }

/-! ### Mutations the event loop performs (`src/main.rs`)

`run_app` mutates `App` either through the methods above or through a few
direct field assignments (`loading`, `mode`, `error`, `favorites_error`,
`current_station`, `volume`, and character edits of the four draft
strings). `ui.rs` takes `&App` and never mutates. The step relation below
has one constructor per mutation site; `set_favorites` is only ever called
with the result of a successful favorites load, which the corresponding
constructor records. -/

inductive AppStep : App → App → Prop where
  | load_favorites (app : App) (fs : FileState) (entries : List FavoriteEntry)
      (h : load_favorites_from_path fs = .ok entries) :
      AppStep app (app.set_favorites entries)
  | update_params_from_drafts (app : App) : AppStep app app.update_params_from_drafts
  | set_stations (app : App) (stations : List Station) :
      AppStep app (app.set_stations stations)
  | set_favorite_stations (app : App) (stations : List Station) :
      AppStep app (app.set_favorite_stations stations)
  | set_error (app : App) (err : String) : AppStep app (app.set_error err)
  | set_favorites_error (app : App) (err : String) :
      AppStep app (app.set_favorites_error err)
  | toggle_favorite_for_selected (app : App) :
      AppStep app app.toggle_favorite_for_selected.1
  | set_view_mode (app : App) (mode : StationViewMode) :
      AppStep app (app.set_view_mode mode)
  | select_next (app : App) (visible_height : Nat) :
      AppStep app (app.select_next visible_height)
  | select_prev (app : App) : AppStep app app.select_prev
  | next_page (app : App) : AppStep app app.next_page
  | prev_page (app : App) : AppStep app app.prev_page
  | next_field (app : App) : AppStep app app.next_field
  | set_loading (app : App) (b : Bool) : AppStep app { app with loading := b }
  | set_favorites_loading (app : App) (b : Bool) :
      AppStep app { app with favorites_loading := b }
  | set_mode (app : App) (m : AppMode) : AppStep app { app with mode := m }
  | set_error_field (app : App) (e : Option String) : AppStep app { app with error := e }
  | set_favorites_error_field (app : App) (e : Option String) :
      AppStep app { app with favorites_error := e }
  | set_current_station (app : App) (s : Option Station) :
      AppStep app { app with current_station := s }
  | set_volume (app : App) (v : Nat) : AppStep app { app with volume := v }
  | edit_draft_name (app : App) (s : String) : AppStep app { app with draft_name := s }
  | edit_draft_tags (app : App) (s : String) : AppStep app { app with draft_tags := s }
  | edit_draft_country (app : App) (s : String) :
      AppStep app { app with draft_country := s }
  | edit_draft_language (app : App) (s : String) :
      AppStep app { app with draft_language := s }

/-- States the event loop can reach from `App::new`. -/
inductive ReachableApp : App → Prop where
  | init : ReachableApp App.new
  | step {a b : App} : ReachableApp a → AppStep a b → ReachableApp b

/-! ### Bulk fetch fan-out (`src/api.rs`, `fetch_stations_by_uuids`)

One task is spawned per requested identifier. A task that runs to
completion returns `Ok((station_uuid, result))` where `result` is the
`Result<Option<Station>, String>` of `fetch_station_by_uuid`; a task whose
semaphore acquire fails returns `Ok(Err(msg))` (losing the identifier);
`JoinSet::join_next` can also surface a join error (`Err(_)`), again losing
the identifier. Tasks complete in an arbitrary order, so the collection
loop is modelled over an arbitrary permutation of the per-identifier
results. -/

/-- Outcome of `fetch_station_by_uuid` for one identifier. -/
inductive FetchOutcome where
  | found (s : Station)
  | absent
  | failed (msg : String)
deriving DecidableEq, Repr

/-- One value returned by `join_set.join_next()` (with its payload). -/
inductive TaskResult where
  | completed (station_uuid : String) (out : FetchOutcome)
  | acquireError (msg : String)
  | joinError
deriving DecidableEq, Repr

/-- Relation between a requested identifier and the `join_next` result of
the task spawned for it: the task either completes carrying its own
identifier, or is lost to an acquire or join failure. -/
def resultFor (u : String) (r : TaskResult) : Prop :=
  (∃ out, r = .completed u out) ∨ (∃ m, r = .acquireError m) ∨ r = .joinError

/-- The station a result contributes to the `stations` output, if any. -/
def stationOf : TaskResult → Option Station
  | .completed _ (.found s) => some s
  | _ => none

/-- The identifier a result contributes to the `failed_uuids` output, if
any (confirmed-absent and errored lookups only). -/
def failedUuidOf : TaskResult → Option String
  | .completed u .absent => some u
  | .completed u (.failed _) => some u
  | _ => none

/-- The `while let Some(result) = join_set.join_next().await` collection
loop: push resolved stations and failed identifiers in completion order,
silently dropping acquire- and join-failures. -/
def collectResults : List TaskResult → List Station × List String
  | [] => ([], [])
  | r :: rest =>
    let acc := collectResults rest
    match r with
    | .completed _ (.found s) => (s :: acc.1, acc.2)
    | .completed u .absent => (acc.1, u :: acc.2)
    | .completed u (.failed _) => (acc.1, u :: acc.2)
    | .acquireError _ => acc
    | .joinError => acc

/-- Embeds `fetch_stations_by_uuids`: empty input short-circuits to two
empty lists; otherwise every per-identifier task result is collected. The
`results` argument is the sequence of task results in completion order. -/
def fetch_stations_by_uuids (station_uuids : List String)
    (results : List TaskResult) : List Station × List String :=
  if station_uuids.isEmpty then ([], [])
  else collectResults results

/-! ### Concurrency limiter (`src/api.rs`)

The semaphore is created with `Semaphore::new(8)`; each task acquires one
owned permit before calling `fetch_station_by_uuid` and the permit is
dropped (released) when the task body finishes, whatever the fetch
outcome. The state machine below tracks, per task, whether it is still
waiting for a permit, holds a permit (its network request may be in
flight), or has finished and released its permit. -/

/-- Phase of one spawned fetch task with respect to the semaphore. -/
inductive TaskPhase where
  | pending
  | inFlight
  | done
deriving DecidableEq, Repr

/-- Semaphore permit counter plus the phase of each spawned task. -/
structure LimiterState where
  permits : Nat
  tasks : List TaskPhase
deriving DecidableEq, Repr

/-- The capacity passed to `Semaphore::new`. -/
def semaphoreCapacity : Nat := 8

/-- Start state for `n` requested identifiers: all tasks spawned and
waiting, all permits free. -/
def LimiterState.start (n : Nat) : LimiterState :=
  { permits := semaphoreCapacity, tasks := List.replicate n .pending }

/-- Number of tasks whose network request may be in flight (between
permit acquisition and permit release). -/
def inFlightCount (s : LimiterState) : Nat :=
  s.tasks.countP fun t => decide (t = TaskPhase.inFlight)

/-- Scheduler steps: `acquire_owned` succeeds for a waiting task only when
a permit is free; a task holding a permit releases it unconditionally when
its body ends — whether the fetch succeeded, confirmed absence, or
failed. -/
inductive LimiterStep : LimiterState → LimiterState → Prop where
  | acquire (s : LimiterState) (i : Nat) (h : s.tasks[i]? = some .pending)
      (hp : 0 < s.permits) :
      LimiterStep s { permits := s.permits - 1, tasks := s.tasks.set i .inFlight }
  | release (s : LimiterState) (i : Nat) (h : s.tasks[i]? = some .inFlight) :
      LimiterStep s { permits := s.permits + 1, tasks := s.tasks.set i .done }

/-- Limiter states reachable while serving `n` identifiers. -/
inductive LimiterReachable (n : Nat) : LimiterState → Prop where
  | start : LimiterReachable n (.start n)
  | step {s s' : LimiterState} : LimiterReachable n s → LimiterStep s s' →
      LimiterReachable n s'

/-- Test state: the selected station carries fresher name/url data than the
stored favorite record for the same identifier (a station renamed on the
remote directory after being favorited). -/
def staleApp : App :=
  { App.new with
    stations := [⟨"u1", "New", "urlNew", "", "", "", "", 0⟩]
    favorite_ids := {"u1"}
    favorites := [⟨"u1", "Old", "urlOld"⟩] }

/-- Test state: one listed station, nothing favorited yet. -/
def freshApp : App :=
  { App.new with stations := [⟨"u2", "B", "urlB", "", "", "", "", 0⟩] }

/-! ## Helper lemmas -/

theorem countP_set_balance (p : TaskPhase → Bool) (l : List TaskPhase) (i : Nat)
    (a : TaskPhase) (h : l[i]? = some a) (b : TaskPhase) :
    (l.set i b).countP p + (if p a then 1 else 0) =
      l.countP p + (if p b then 1 else 0) := by
  obtain ⟨hi, hget⟩ := List.getElem?_eq_some_iff.mp h
  have hcount := List.countP_set p l i b hi
  have hle : (if p a then 1 else 0) ≤ l.countP p := by
    by_cases hpa : p a = true
    · have : 0 < l.countP p :=
        List.countP_pos_iff.mpr ⟨a, hget ▸ List.getElem_mem hi, hpa⟩
      simpa [hpa] using this
    · simp [hpa]
  rw [hget] at hcount
  omega

theorem limiter_invariant (n : Nat) (s : LimiterState)
    (h : LimiterReachable n s) :
    s.permits + inFlightCount s = semaphoreCapacity := by
  induction h with
  | start =>
    simp [inFlightCount, LimiterState.start, List.countP_eq_zero, List.mem_replicate]
  | step _ hstep ih =>
    cases hstep with
    | acquire i hget hp =>
      have hbal := countP_set_balance (fun t => decide (t = TaskPhase.inFlight))
        _ i .pending hget .inFlight
      simp only [inFlightCount] at ih ⊢
      simp only [decide_eq_true_eq, if_true, if_false, reduceCtorEq, reduceIte] at hbal
      omega
    | release i hget =>
      have hbal := countP_set_balance (fun t => decide (t = TaskPhase.inFlight))
        _ i .inFlight hget .done
      simp only [inFlightCount] at ih ⊢
      simp only [decide_eq_true_eq, if_true, if_false, reduceCtorEq, reduceIte] at hbal
      omega

/-! ## Claims -/

/-- C2: in every state the fan-out of `fetch_stations_by_uuids` can reach,
at most 8 fetch-by-identifier requests are simultaneously in flight: a task
enters the in-flight phase only by taking one of the 8 semaphore permits
and returns its permit unconditionally when its body finishes. -/
theorem limiter_in_flight_le_eight (n : Nat) (s : LimiterState)
    (h : LimiterReachable n s) : inFlightCount s ≤ 8 := by
  have := limiter_invariant n s h
  simp [semaphoreCapacity] at this
  omega

/-- Witness for C2 at a concrete reachable state: 20 spawned tasks, one of
which has acquired a permit. -/
theorem limiter_in_flight_le_eight_witness :
    inFlightCount { permits := 7, tasks := (List.replicate 20 TaskPhase.pending).set 0 .inFlight } ≤ 8 :=
  limiter_in_flight_le_eight 20 _
    (LimiterReachable.step LimiterReachable.start
      (LimiterStep.acquire (LimiterState.start 20) 0 (by decide) (by decide)))

/-- C8: loading favorites from a path with no file present yields `Ok` of
the empty list, while a file whose content is not valid JSON for a list of
favorite entries yields a decode error instead of a list or a crash. -/
theorem load_missing_empty_malformed_error :
    load_favorites_from_path .absent = .ok [] ∧
      ∃ msg, load_favorites_from_path .invalidJson = .error msg :=
  ⟨rfl, "Failed to parse favorites JSON", rfl⟩

/-- C3: `set_stations` recomputes `total_pages` from the result count
alone — `page + 1` for a full page, `page` for a short one, regardless of
the previous `total_pages` — and resets selection and scroll to 0, clears
the loading flag and clears the `AllStations` error. The two bounds keep
the `u32` arithmetic of the source away from wraparound. -/
theorem set_stations_total_pages (app : App) (stations : List Station)
    (hpage : app.page + 1 < U32) (hlen : stations.length < U32) :
    (stations.length = app.params.limit →
      (app.set_stations stations).total_pages = app.page + 1) ∧
    (stations.length < app.params.limit →
      (app.set_stations stations).total_pages = app.page) ∧
    (app.set_stations stations).selected = 0 ∧
    (app.set_stations stations).scroll_offset = 0 ∧
    (app.set_stations stations).loading = false ∧
    (app.set_stations stations).error = none := by
  have hmod : stations.length % U32 = stations.length := Nat.mod_eq_of_lt hlen
  refine ⟨fun hfull => ?_, fun hshort => ?_, rfl, rfl, rfl, rfl⟩
  · have hmod' : stations.length % U32 = app.params.limit := by rw [hmod, hfull]
    simp [App.set_stations, hmod', Nat.mod_eq_of_lt hpage]
  · have hne : stations.length % U32 ≠ app.params.limit := by
      rw [hmod]; exact Nat.ne_of_lt hshort
    simp [App.set_stations, hne]

/-- Witness for C3: a fresh `App` (previous `total_pages = 1`, `page = 1`)
receiving an empty result page pins `total_pages` to `page`. -/
theorem set_stations_total_pages_witness :
    App.new.page + 1 < U32 ∧ ([] : List Station).length < U32 ∧
      ([] : List Station).length < App.new.params.limit ∧
      (App.new.set_stations []).total_pages = App.new.page ∧
      (App.new.set_stations []).loading = false := by
  have h := set_stations_total_pages App.new [] (by decide) (by decide)
  exact ⟨by decide, by decide, by decide, h.2.1 (by decide), h.2.2.2.2.1⟩

/-- C9: `fetch_stations_by_uuids` takes a `Vec`, not a set. With the same
identifier requested twice, each occurrence gets its own task and is
classified independently, so one identifier can appear in both outputs
(first occurrence resolved, second confirmed-absent), and the failed list
can carry the identifier twice. -/
theorem fetch_duplicate_uuid_both_outputs :
    (fetch_stations_by_uuids ["u1", "u1"]
        [.completed "u1" (.found ⟨"u1", "A", "urlA", "", "", "", "", 0⟩),
         .completed "u1" .absent] =
      ([⟨"u1", "A", "urlA", "", "", "", "", 0⟩], ["u1"])) ∧
    (fetch_stations_by_uuids ["u1", "u1"]
        [.completed "u1" .absent, .completed "u1" (.failed "boom")]).2 =
      ["u1", "u1"] ∧
    List.Forall₂ resultFor ["u1", "u1"]
      [.completed "u1" (.found ⟨"u1", "A", "urlA", "", "", "", "", 0⟩),
       .completed "u1" .absent] :=
  ⟨by decide, by decide,
    .cons (Or.inl ⟨_, rfl⟩) (.cons (Or.inl ⟨_, rfl⟩) .nil)⟩

theorem collectResults_fst (rs : List TaskResult) :
    (collectResults rs).1 = rs.filterMap stationOf := by
  induction rs with
  | nil => rfl
  | cons r rest ih =>
    cases r with
    | completed u out => cases out <;> simp [collectResults, stationOf, ih]
    | acquireError m => simp [collectResults, stationOf, ih]
    | joinError => simp [collectResults, stationOf, ih]

theorem collectResults_snd (rs : List TaskResult) :
    (collectResults rs).2 = rs.filterMap failedUuidOf := by
  induction rs with
  | nil => rfl
  | cons r rest ih =>
    cases r with
    | completed u out => cases out <;> simp [collectResults, failedUuidOf, ih]
    | acquireError m => simp [collectResults, failedUuidOf, ih]
    | joinError => simp [collectResults, failedUuidOf, ih]

theorem mem_uuids_of_completed {uuids : List String} {rs : List TaskResult}
    (h : List.Forall₂ resultFor uuids rs) {u : String} {out : FetchOutcome}
    (hm : TaskResult.completed u out ∈ rs) : u ∈ uuids := by
  induction h with
  | nil => cases hm
  | cons hr _ ih =>
    rcases List.mem_cons.mp hm with hm | hm
    · rcases hr with ⟨o, ho⟩ | ⟨m, hm'⟩ | hj
      · rw [ho] at hm
        cases hm
        exact List.mem_cons_self _ _
      · rw [hm'] at hm; cases hm
      · rw [hj] at hm; cases hm
    · exact List.mem_cons_of_mem _ (ih hm)

theorem completed_outcome_unique {uuids : List String} {rs : List TaskResult}
    (h : List.Forall₂ resultFor uuids rs) (hnd : uuids.Nodup)
    {u : String} {o o' : FetchOutcome}
    (hm : TaskResult.completed u o ∈ rs) (hm' : TaskResult.completed u o' ∈ rs) :
    o = o' := by
  induction h with
  | nil => cases hm
  | cons hr htail ih =>
    rename_i a b l₁ l₂
    have hnd' := List.nodup_cons.mp hnd
    rcases List.mem_cons.mp hm with hm | hm <;>
      rcases List.mem_cons.mp hm' with hm' | hm'
    · rw [← hm'] at hm
      injection hm
    · exfalso
      rcases hr with ⟨o₂, ho⟩ | ⟨m, hme⟩ | hj
      · have h1 := hm.trans ho
        injection h1 with h1 h2
        exact hnd'.1 (h1 ▸ mem_uuids_of_completed htail hm')
      · exact TaskResult.noConfusion (hm.trans hme)
      · exact TaskResult.noConfusion (hm.trans hj)
    · exfalso
      rcases hr with ⟨o₂, ho⟩ | ⟨m, hme⟩ | hj
      · have h1 := hm'.trans ho
        injection h1 with h1 h2
        exact hnd'.1 (h1 ▸ mem_uuids_of_completed htail hm)
      · exact TaskResult.noConfusion (hm'.trans hme)
      · exact TaskResult.noConfusion (hm'.trans hj)
    · exact ih hnd'.2 hm hm'

theorem fetch_eq_collect {uuids : List String} (hne : uuids ≠ [])
    (results : List TaskResult) :
    fetch_stations_by_uuids uuids results = collectResults results := by
  simp [fetch_stations_by_uuids, hne]

/-- C1: for a non-empty, duplicate-free identifier request, every
identifier whose task completed lands on exactly one side of the returned
partition — the station of a `Some(station)` task is in `stations` and the
identifier is absent from `failed_uuids`, while a `None` or errored task
puts the identifier in `failed_uuids` and no task resolved a station for
it. `rs` lists the per-identifier task results and `results` is any
completion order of them. -/
theorem fetch_partition (uuids : List String) (rs results : List TaskResult)
    (hne : uuids ≠ []) (hnd : uuids.Nodup)
    (htasks : List.Forall₂ resultFor uuids rs) (hperm : results.Perm rs) :
    ∀ u out, TaskResult.completed u out ∈ results →
      (∀ s, out = .found s →
        s ∈ (fetch_stations_by_uuids uuids results).1 ∧
          u ∉ (fetch_stations_by_uuids uuids results).2) ∧
      ((out = .absent ∨ ∃ m, out = .failed m) →
        u ∈ (fetch_stations_by_uuids uuids results).2 ∧
          ∀ s, TaskResult.completed u (.found s) ∉ results) := by
  intro u out hm
  rw [fetch_eq_collect hne, collectResults_fst, collectResults_snd]
  constructor
  · rintro s rfl
    constructor
    · exact List.mem_filterMap.mpr ⟨_, hm, rfl⟩
    · intro hu
      rcases List.mem_filterMap.mp hu with ⟨r, hr, hru⟩
      have hfound : TaskResult.completed u (.found s) ∈ rs := hperm.mem_iff.mp hm
      cases r with
      | completed u' out' =>
        cases out' with
        | found s' => simp [failedUuidOf] at hru
        | absent =>
          simp only [failedUuidOf, Option.some.injEq] at hru
          have h3 : TaskResult.completed u FetchOutcome.absent ∈ rs := by
            rw [← hru]; exact hperm.mem_iff.mp hr
          exact FetchOutcome.noConfusion
            (completed_outcome_unique htasks hnd hfound h3)
        | failed m =>
          simp only [failedUuidOf, Option.some.injEq] at hru
          have h3 : TaskResult.completed u (FetchOutcome.failed m) ∈ rs := by
            rw [← hru]; exact hperm.mem_iff.mp hr
          exact FetchOutcome.noConfusion
            (completed_outcome_unique htasks hnd hfound h3)
      | acquireError m => simp [failedUuidOf] at hru
      | joinError => simp [failedUuidOf] at hru
  · intro hout
    have hfail : failedUuidOf (.completed u out) = some u := by
      rcases hout with rfl | ⟨m, rfl⟩ <;> rfl
    constructor
    · exact List.mem_filterMap.mpr ⟨_, hm, hfail⟩
    · intro s hs
      have h1 : TaskResult.completed u (.found s) ∈ rs := hperm.mem_iff.mp hs
      have h2 : TaskResult.completed u out ∈ rs := hperm.mem_iff.mp hm
      have heq := completed_outcome_unique htasks hnd h1 h2
      rcases hout with rfl | ⟨m, rfl⟩ <;> exact FetchOutcome.noConfusion heq

/-- Witness for C1: two identifiers, completing in the opposite order to
submission; `a` resolves, `b` is confirmed-absent. -/
theorem fetch_partition_witness :
    (⟨"a", "A", "uA", "", "", "", "", 0⟩ : Station) ∈
      (fetch_stations_by_uuids ["a", "b"]
        [.completed "b" .absent,
         .completed "a" (.found ⟨"a", "A", "uA", "", "", "", "", 0⟩)]).1 ∧
    "a" ∉ (fetch_stations_by_uuids ["a", "b"]
        [.completed "b" .absent,
         .completed "a" (.found ⟨"a", "A", "uA", "", "", "", "", 0⟩)]).2 :=
  (fetch_partition ["a", "b"]
      [.completed "a" (.found ⟨"a", "A", "uA", "", "", "", "", 0⟩),
       .completed "b" .absent]
      [.completed "b" .absent,
       .completed "a" (.found ⟨"a", "A", "uA", "", "", "", "", 0⟩)]
      (by decide) (by decide)
      (.cons (Or.inl ⟨_, rfl⟩) (.cons (Or.inl ⟨_, rfl⟩) .nil))
      (by decide)
      "a" (.found ⟨"a", "A", "uA", "", "", "", "", 0⟩)
      (by decide)).1 _ rfl

theorem hasUuid_true_iff (l : List FavoriteEntry) (u : String) :
    hasUuid l u = true ↔ u ∈ l.map fun e => e.stationuuid := by
  simp only [hasUuid, List.any_eq_true, decide_eq_true_eq, List.mem_map]

theorem hasUuid_false_iff (l : List FavoriteEntry) (u : String) :
    hasUuid l u = false ↔ u ∉ l.map fun e => e.stationuuid := by
  rw [Bool.eq_false_iff, Ne, hasUuid_true_iff]

theorem updateFirst_map_uuid (u n r : String) (l : List FavoriteEntry) :
    ((updateFirst u n r l).map fun e => e.stationuuid) =
      l.map fun e => e.stationuuid := by
  induction l with
  | nil => rfl
  | cons f rest ih =>
    by_cases h : f.stationuuid = u
    · simp [updateFirst, h]
    · simp [updateFirst, h, ih]

theorem mem_updateFirst_uuid {u n r : String} {l : List FavoriteEntry}
    {e : FavoriteEntry} (hm : e ∈ updateFirst u n r l) :
    ∃ f ∈ l, e.stationuuid = f.stationuuid := by
  induction l with
  | nil => cases hm
  | cons f rest ih =>
    by_cases h : f.stationuuid = u
    · simp only [updateFirst, if_pos h] at hm
      rcases List.mem_cons.mp hm with rfl | hm
      · exact ⟨f, List.mem_cons_self _ _, rfl⟩
      · exact ⟨e, List.mem_cons_of_mem _ hm, rfl⟩
    · simp only [updateFirst, if_neg h] at hm
      rcases List.mem_cons.mp hm with rfl | hm
      · exact ⟨e, List.mem_cons_self _ _, rfl⟩
      · obtain ⟨g, hg, he⟩ := ih hm
        exact ⟨g, List.mem_cons_of_mem _ hg, he⟩

theorem mem_updateFirst_ne {u n r : String} {l : List FavoriteEntry}
    {e : FavoriteEntry} (hm : e ∈ updateFirst u n r l)
    (hne : e.stationuuid ≠ u) : e ∈ l := by
  induction l with
  | nil => cases hm
  | cons f rest ih =>
    by_cases h : f.stationuuid = u
    · simp only [updateFirst, if_pos h] at hm
      rcases List.mem_cons.mp hm with rfl | hm
      · exact absurd h hne
      · exact List.mem_cons_of_mem _ hm
    · simp only [updateFirst, if_neg h] at hm
      rcases List.mem_cons.mp hm with rfl | hm
      · exact List.mem_cons_self _ _
      · exact List.mem_cons_of_mem _ (ih hm)

theorem mem_updateFirst_eq {u n r : String} {l : List FavoriteEntry}
    {e : FavoriteEntry} (hnd : (l.map fun e => e.stationuuid).Nodup)
    (hm : e ∈ updateFirst u n r l) (heq : e.stationuuid = u) :
    e = { stationuuid := u, name := n, url := r } := by
  induction l with
  | nil => cases hm
  | cons f rest ih =>
    simp only [List.map_cons, List.nodup_cons] at hnd
    by_cases h : f.stationuuid = u
    · simp only [updateFirst, if_pos h] at hm
      rcases List.mem_cons.mp hm with rfl | hm
      · cases f
        simp only at h
        simp [h]
      · exfalso
        exact hnd.1 (h ▸ List.mem_map.mpr ⟨e, hm, heq⟩)
    · simp only [updateFirst, if_neg h] at hm
      rcases List.mem_cons.mp hm with rfl | hm
      · exact absurd heq h
      · exact ih hnd.2 hm

theorem dedup_go_nodup (l acc : List FavoriteEntry)
    (hacc : (acc.map fun e => e.stationuuid).Nodup) :
    ((List.foldl dedupStep acc l).map fun e => e.stationuuid).Nodup := by
  induction l generalizing acc with
  | nil => simpa using hacc
  | cons f rest ih =>
    rw [List.foldl_cons]
    apply ih
    unfold dedupStep
    split
    · exact hacc
    · split
      · rwa [updateFirst_map_uuid]
      · rename_i hhas
        rw [List.map_append]
        refine List.Nodup.append hacc (by simp) ?_
        intro a ha hb
        simp only [List.map_cons, List.map_nil, List.mem_singleton] at hb
        exact (hasUuid_false_iff acc f.stationuuid).mp
          (Bool.eq_false_iff.mpr hhas) (hb ▸ ha)

theorem dedup_go_nonblank (l acc : List FavoriteEntry)
    (hacc : ∀ e ∈ acc, blankUuid e = false) :
    ∀ e ∈ List.foldl dedupStep acc l, blankUuid e = false := by
  induction l generalizing acc with
  | nil => simpa using hacc
  | cons f rest ih =>
    rw [List.foldl_cons]
    apply ih
    unfold dedupStep
    split
    · exact hacc
    · split
      · intro e he
        obtain ⟨g, hg, hgu⟩ := mem_updateFirst_uuid he
        have := hacc g hg
        unfold blankUuid at this ⊢
        rw [hgu]
        exact this
      · rename_i hblank _
        intro e he
        rcases List.mem_append.mp he with he | he
        · exact hacc e he
        · rw [List.mem_singleton.mp he]
          exact Bool.eq_false_iff.mpr hblank

theorem dedupStep_nodup (acc : List FavoriteEntry) (f : FavoriteEntry)
    (hacc : (acc.map fun e => e.stationuuid).Nodup) :
    ((dedupStep acc f).map fun e => e.stationuuid).Nodup := by
  unfold dedupStep
  split
  · exact hacc
  · split
    · rwa [updateFirst_map_uuid]
    · rename_i hhas
      rw [List.map_append]
      refine List.Nodup.append hacc (by simp) ?_
      intro a ha hb
      simp only [List.map_cons, List.map_nil, List.mem_singleton] at hb
      exact (hasUuid_false_iff acc f.stationuuid).mp
        (Bool.eq_false_iff.mpr hhas) (hb ▸ ha)

theorem dedupStep_nonblank (acc : List FavoriteEntry) (f : FavoriteEntry)
    (hacc : ∀ e ∈ acc, blankUuid e = false) :
    ∀ e ∈ dedupStep acc f, blankUuid e = false := by
  unfold dedupStep
  split
  · exact hacc
  · split
    · intro e he
      obtain ⟨g, hg, hgu⟩ := mem_updateFirst_uuid he
      have := hacc g hg
      unfold blankUuid at this ⊢
      rw [hgu]
      exact this
    · rename_i hblank _
      intro e he
      rcases List.mem_append.mp he with he | he
      · exact hacc e he
      · rw [List.mem_singleton.mp he]
        exact Bool.eq_false_iff.mpr hblank

theorem lastEntryFor_cons (f : FavoriteEntry) (l : List FavoriteEntry) (u : String) :
    lastEntryFor (f :: l) u =
      if f.stationuuid = u then
        match lastEntryFor l u with
        | some e => some e
        | none => some f
      else lastEntryFor l u := by
  unfold lastEntryFor
  by_cases h : f.stationuuid = u
  · rw [List.filter_cons_of_pos (by simp [h]), if_pos h]
    rw [List.getLast?_eq_head?_reverse, List.reverse_cons, List.head?_append,
      ← List.getLast?_eq_head?_reverse]
    cases hcase : (l.filter fun e => e.stationuuid = u).getLast? <;> simp [hcase]
  · rw [List.filter_cons_of_neg (by simp [h]), if_neg h]

theorem dedup_go_last (l acc : List FavoriteEntry)
    (hnd : (acc.map fun e => e.stationuuid).Nodup)
    (hnb : ∀ e ∈ acc, blankUuid e = false) :
    ∀ e ∈ List.foldl dedupStep acc l,
      lastEntryFor l e.stationuuid = some e ∨
        (e ∈ acc ∧ lastEntryFor l e.stationuuid = none) := by
  induction l generalizing acc with
  | nil =>
    intro e he
    exact Or.inr ⟨by simpa using he, rfl⟩
  | cons f rest ih =>
    intro e he
    rw [List.foldl_cons] at he
    rcases ih (dedupStep acc f) (dedupStep_nodup acc f hnd)
        (dedupStep_nonblank acc f hnb) e he with hlast | ⟨hmem, hnone⟩
    · left
      rw [lastEntryFor_cons]
      split <;> simp [hlast]
    · unfold dedupStep at hmem
      by_cases hfu : f.stationuuid = e.stationuuid
      · -- the new head carries the same identifier as `e`
        split at hmem
        · -- blank head: but `e` would then be blank as well
          rename_i hblank
          exfalso
          have hben : blankUuid e = false := hnb e hmem
          have : blankUuid f = false := by
            unfold blankUuid at hben ⊢
            rw [hfu]
            exact hben
          rw [hblank] at this
          cases this
        · split at hmem
          · -- update-in-place: `e` is the head's data at the old position
            have he' := mem_updateFirst_eq hnd hmem hfu.symm
            left
            rw [lastEntryFor_cons, if_pos hfu, hnone, he']
          · -- appended: `e ∈ acc ++ [f]`
            rcases List.mem_append.mp hmem with hacc' | hf
            · -- `e ∈ acc` would put `f.stationuuid` in `acc`
              rename_i hhas
              exfalso
              exact (hasUuid_false_iff acc f.stationuuid).mp
                (Bool.eq_false_iff.mpr hhas)
                (List.mem_map.mpr ⟨e, hacc', hfu.symm⟩)
            · left
              rw [List.mem_singleton.mp hf] at hnone ⊢
              rw [lastEntryFor_cons, if_pos rfl, hnone]
      · -- different identifier: the head is irrelevant
        have htail : lastEntryFor (f :: rest) e.stationuuid =
            lastEntryFor rest e.stationuuid := by
          rw [lastEntryFor_cons, if_neg hfu]
        split at hmem
        · exact Or.inr ⟨hmem, htail.trans hnone⟩
        · split at hmem
          · exact Or.inr ⟨mem_updateFirst_ne hmem (fun h => hfu h.symm), htail.trans hnone⟩
          · rcases List.mem_append.mp hmem with hacc' | hf
            · exact Or.inr ⟨hacc', htail.trans hnone⟩
            · exact absurd (congrArg (fun e => e.stationuuid)
                (List.mem_singleton.mp hf)).symm hfu

theorem dedup_go_mem_acc (l acc : List FavoriteEntry) {u : String}
    (h : u ∈ acc.map fun e => e.stationuuid) :
    u ∈ (List.foldl dedupStep acc l).map fun e => e.stationuuid := by
  induction l generalizing acc with
  | nil => simpa using h
  | cons f rest ih =>
    rw [List.foldl_cons]
    apply ih
    unfold dedupStep
    split
    · exact h
    · split
      · rwa [updateFirst_map_uuid]
      · rw [List.map_append]
        exact List.mem_append_left _ h

theorem dedup_go_mem (l : List FavoriteEntry) {g : FavoriteEntry}
    (hg : g ∈ l) (hnb : blankUuid g = false) (acc : List FavoriteEntry) :
    g.stationuuid ∈ (List.foldl dedupStep acc l).map fun e => e.stationuuid := by
  induction l generalizing acc with
  | nil => cases hg
  | cons f rest ih =>
    rw [List.foldl_cons]
    rcases List.mem_cons.mp hg with rfl | hg
    · apply dedup_go_mem_acc
      unfold dedupStep
      rw [if_neg (by simp [hnb])]
      split
      · rename_i hhas
        rw [updateFirst_map_uuid]
        exact (hasUuid_true_iff _ _).mp hhas
      · rw [List.map_append]
        exact List.mem_append_right _ (by simp)
    · exact ih hg _

theorem dedup_go_clean (l acc : List FavoriteEntry)
    (hnb : ∀ e ∈ l, blankUuid e = false)
    (hnd : ((acc ++ l).map fun e => e.stationuuid).Nodup) :
    List.foldl dedupStep acc l = acc ++ l := by
  induction l generalizing acc with
  | nil => simp
  | cons f rest ih =>
    have hdisj := (List.nodup_append.mp (by rwa [List.map_append] at hnd)).2.2
    have hstep : dedupStep acc f = acc ++ [f] := by
      unfold dedupStep
      rw [if_neg (by simp [hnb f (List.mem_cons_self _ _)]), if_neg ?_]
      intro hhas
      exact hdisj ((hasUuid_true_iff acc f.stationuuid).mp hhas)
        (by simp)
    have hassoc : (acc ++ [f]) ++ rest = acc ++ f :: rest := by simp
    rw [List.foldl_cons, hstep,
      ih (acc ++ [f]) (fun e he => hnb e (List.mem_cons_of_mem _ he)) (by rwa [hassoc]),
      hassoc]

theorem favCmpLe_iff (a b : FavoriteEntry) :
    favCmpLe a b = true ↔
      ((lowerStr a.name).data < (lowerStr b.name).data ∨
        ((lowerStr a.name).data = (lowerStr b.name).data ∧
          ¬ b.stationuuid.data < a.stationuuid.data)) := by
  simp [favCmpLe, strLtb, String.ext_iff]

theorem favCmpLe_trans (a b c : FavoriteEntry) (hab : favCmpLe a b = true)
    (hbc : favCmpLe b c = true) : favCmpLe a c = true := by
  rw [favCmpLe_iff] at hab hbc ⊢
  rcases hab with h1 | ⟨h1, h1'⟩ <;> rcases hbc with h2 | ⟨h2, h2'⟩
  · exact Or.inl (lt_trans h1 h2)
  · exact Or.inl (h2 ▸ h1)
  · exact Or.inl (h1 ▸ h2)
  · exact Or.inr ⟨h1.trans h2,
      not_lt.mpr (le_trans (not_lt.mp h1') (not_lt.mp h2'))⟩

theorem favCmpLe_total (a b : FavoriteEntry) :
    (favCmpLe a b || favCmpLe b a) = true := by
  rw [Bool.or_eq_true, favCmpLe_iff, favCmpLe_iff]
  rcases lt_trichotomy (lowerStr a.name).data (lowerStr b.name).data with h | h | h
  · exact Or.inl (Or.inl h)
  · rcases le_total a.stationuuid.data b.stationuuid.data with hu | hu
    · exact Or.inl (Or.inr ⟨h, not_lt.mpr hu⟩)
    · exact Or.inr (Or.inr ⟨h.symm, not_lt.mpr hu⟩)
  · exact Or.inr (Or.inl h)

theorem processFavorites_spec (favs : List FavoriteEntry) :
    List.Pairwise (fun a b => favCmpLe a b = true) (processFavorites favs) ∧
    ((processFavorites favs).map fun e => e.stationuuid).Nodup ∧
    (∀ e ∈ processFavorites favs, blankUuid e = false) ∧
    (∀ e ∈ processFavorites favs, lastEntryFor favs e.stationuuid = some e) ∧
    (∀ f ∈ favs, blankUuid f = false →
      f.stationuuid ∈ (processFavorites favs).map fun e => e.stationuuid) := by
  have hperm : (processFavorites favs).Perm (dedupFavorites favs) :=
    List.mergeSort_perm _ _
  have hpermu := hperm.map fun e => e.stationuuid
  refine ⟨List.sorted_mergeSort favCmpLe_trans favCmpLe_total _, ?_, ?_, ?_, ?_⟩
  · exact hpermu.nodup_iff.mpr (dedup_go_nodup favs [] (by simp))
  · intro e he
    exact dedup_go_nonblank favs [] (by simp) e (hperm.mem_iff.mp he)
  · intro e he
    rcases dedup_go_last favs [] (by simp) (by simp) e (hperm.mem_iff.mp he) with
      h | ⟨habs, _⟩
    · exact h
    · cases habs
  · intro f hf hnb
    exact hpermu.mem_iff.mpr (dedup_go_mem favs hf hnb [])

theorem processFavorites_idem (favs : List FavoriteEntry) :
    processFavorites (processFavorites favs) = processFavorites favs := by
  obtain ⟨hsort, hnd, hnb, -, -⟩ := processFavorites_spec favs
  have hdedup := dedup_go_clean (processFavorites favs) [] hnb (by simpa using hnd)
  rw [List.nil_append] at hdedup
  show sortFavorites (dedupFavorites (processFavorites favs)) = _
  unfold dedupFavorites
  rw [hdedup]
  exact List.mergeSort_of_sorted hsort

/-- C6: saving a favorites list and reloading it succeeds and produces the
filter/dedup/sort normal form of the input: sorted by case-insensitive
name with the identifier as tie-break, one entry per identifier, each
entry carrying the name and url of the last input occurrence of its
identifier, and containing every non-blank input identifier. -/
theorem favorites_save_load_roundtrip (favs : List FavoriteEntry) :
    load_favorites_from_path (save_favorites_to_path favs) =
      .ok (processFavorites favs) ∧
    List.Pairwise (fun a b => favCmpLe a b = true) (processFavorites favs) ∧
    ((processFavorites favs).map fun e => e.stationuuid).Nodup ∧
    (∀ e ∈ processFavorites favs, lastEntryFor favs e.stationuuid = some e) ∧
    (∀ f ∈ favs, blankUuid f = false →
      f.stationuuid ∈ (processFavorites favs).map fun e => e.stationuuid) := by
  obtain ⟨hsort, hnd, -, hlast, hmem⟩ := processFavorites_spec favs
  refine ⟨?_, hsort, hnd, hlast, hmem⟩
  show Except.ok (processFavorites (processFavorites favs)) = _
  rw [processFavorites_idem]

/-- Witness for C6 at a concrete two-entry list given in reverse name
order: reloading yields the sorted normal form and keeps both
identifiers. -/
theorem favorites_save_load_roundtrip_witness :
    (⟨"a", "A", "ua"⟩ : FavoriteEntry) ∈
        ([⟨"b", "B", "ub"⟩, ⟨"a", "A", "ua"⟩] : List FavoriteEntry) ∧
    blankUuid ⟨"a", "A", "ua"⟩ = false ∧
    "a" ∈ (processFavorites [⟨"b", "B", "ub"⟩, ⟨"a", "A", "ua"⟩]).map
        fun e => e.stationuuid :=
  ⟨by decide, by decide,
    (favorites_save_load_roundtrip [⟨"b", "B", "ub"⟩, ⟨"a", "A", "ua"⟩]).2.2.2.2
      ⟨"a", "A", "ua"⟩ (by decide) (by decide)⟩

/-- C10: both persistence directions silently drop entries whose
identifier is empty or whitespace-only. Saving writes the processed list
(these entries removed) and succeeds; loading returns the processed list
and succeeds; the processed list never contains a blank-identifier entry. -/
theorem blank_identifier_entries_dropped (favs : List FavoriteEntry) :
    save_favorites_to_path favs = .validJson (processFavorites favs) ∧
    load_favorites_from_path (.validJson favs) = .ok (processFavorites favs) ∧
    (∀ e ∈ processFavorites favs, blankUuid e = false) ∧
    (∀ f ∈ favs, blankUuid f = true → f ∉ processFavorites favs) := by
  obtain ⟨-, -, hnb, -, -⟩ := processFavorites_spec favs
  refine ⟨rfl, rfl, hnb, ?_⟩
  intro f _ hblank hf
  rw [hnb f hf] at hblank
  cases hblank

/-- Witness for C10: a whitespace-only identifier entry is dropped while a
real one survives a save. -/
theorem blank_identifier_entries_dropped_witness :
    (⟨"  ", "Blank", "ub"⟩ : FavoriteEntry) ∈
        ([⟨"  ", "Blank", "ub"⟩, ⟨"a", "A", "ua"⟩] : List FavoriteEntry) ∧
    blankUuid ⟨"  ", "Blank", "ub"⟩ = true ∧
    (⟨"  ", "Blank", "ub"⟩ : FavoriteEntry) ∉
        processFavorites [⟨"  ", "Blank", "ub"⟩, ⟨"a", "A", "ua"⟩] :=
  ⟨by decide, by decide,
    (blank_identifier_entries_dropped [⟨"  ", "Blank", "ub"⟩, ⟨"a", "A", "ua"⟩]).2.2.2
      ⟨"  ", "Blank", "ub"⟩ (by decide) (by decide)⟩

theorem toggle_none_eq (app : App) (hsel : app.selected_station = none) :
    app.toggle_favorite_for_selected = (app, none) := by
  simp only [App.toggle_favorite_for_selected, hsel]

theorem toggle_proj (app : App) (s : Station)
    (hsel : app.selected_station = some s) :
    (app.toggle_favorite_for_selected).1.favorite_ids =
      (if s.stationuuid ∈ app.favorite_ids then
        app.favorite_ids.erase s.stationuuid
      else insert s.stationuuid app.favorite_ids) ∧
    (app.toggle_favorite_for_selected).1.favorites =
      (if s.stationuuid ∈ app.favorite_ids then
        app.favorites.filter fun fav => fav.stationuuid ≠ s.stationuuid
      else upsertFavorite app.favorites s) ∧
    (app.toggle_favorite_for_selected).1.page = app.page ∧
    (app.toggle_favorite_for_selected).1.total_pages = app.total_pages ∧
    (app.toggle_favorite_for_selected).1.params = app.params ∧
    (app.toggle_favorite_for_selected).2 =
      some (decide (s.stationuuid ∉ app.favorite_ids)) := by
  simp only [App.toggle_favorite_for_selected, hsel]
  by_cases hmem : s.stationuuid ∈ app.favorite_ids
  · simp only [if_pos hmem]
    split <;> simp
  · simp only [if_neg hmem]
    split <;> simp

theorem map_uuid_filter_ne (favs : List FavoriteEntry) (u : String) :
    ((favs.filter fun fav => fav.stationuuid ≠ u).map fun e => e.stationuuid) =
      (favs.map fun e => e.stationuuid).filter fun x => x ≠ u := by
  induction favs with
  | nil => rfl
  | cons f rest ih =>
    by_cases h : f.stationuuid = u
    · rw [List.filter_cons_of_neg (by simp [h]), List.map_cons,
        List.filter_cons_of_neg (by simp [h]), ih]
    · rw [List.filter_cons_of_pos (by simp [h]), List.map_cons, List.map_cons,
        List.filter_cons_of_pos (by simp [h]), ih]

theorem select_next_fields (app : App) (vh : Nat) :
    (app.select_next vh).favorites = app.favorites ∧
    (app.select_next vh).favorite_ids = app.favorite_ids ∧
    (app.select_next vh).page = app.page ∧
    (app.select_next vh).total_pages = app.total_pages ∧
    (app.select_next vh).params = app.params := by
  by_cases h0 : app.current_station_list.length = 0 <;>
    by_cases h1 : app.selected + 1 < app.current_station_list.length <;>
    simp [App.select_next, h0, h1]

theorem select_prev_fields (app : App) :
    app.select_prev.favorites = app.favorites ∧
    app.select_prev.favorite_ids = app.favorite_ids ∧
    app.select_prev.page = app.page ∧
    app.select_prev.total_pages = app.total_pages ∧
    app.select_prev.params = app.params := by
  by_cases h0 : app.current_station_list.isEmpty = true <;>
    by_cases h1 : 0 < app.selected <;>
    simp [App.select_prev, h0, h1]

theorem next_page_char (app : App) :
    (app.view_mode ≠ .allStations → app.next_page = app) ∧
    (¬ app.page < app.total_pages → app.next_page = app) ∧
    (app.view_mode = .allStations → app.page < app.total_pages →
      app.next_page = { app with
        page := (app.page + 1) % U32
        params := { app.params with
          offset := ((app.page + 1) % U32 - 1) * app.params.limit % U32 }
        loading := true }) := by
  refine ⟨fun h => ?_, fun h => ?_, fun h hlt => ?_⟩
  · unfold App.next_page
    rw [if_pos h]
  · unfold App.next_page
    by_cases hv : app.view_mode ≠ .allStations
    · rw [if_pos hv]
    · rw [if_neg hv, if_neg h]
  · unfold App.next_page
    rw [if_neg (by simp [h]), if_pos hlt]

theorem prev_page_char (app : App) :
    (app.view_mode ≠ .allStations → app.prev_page = app) ∧
    (¬ 1 < app.page → app.prev_page = app) ∧
    (app.view_mode = .allStations → 1 < app.page →
      app.prev_page = { app with
        page := app.page - 1
        params := { app.params with
          offset := (app.page - 1 - 1) * app.params.limit % U32 }
        loading := true }) := by
  refine ⟨fun h => ?_, fun h => ?_, fun h hlt => ?_⟩
  · unfold App.prev_page
    rw [if_pos h]
  · unfold App.prev_page
    by_cases hv : app.view_mode ≠ .allStations
    · rw [if_pos hv]
    · rw [if_neg hv, if_neg h]
  · unfold App.prev_page
    rw [if_neg (by simp [h]), if_pos hlt]

theorem toggle_preserves_coherence (app : App)
    (hco : app.favorite_ids = (app.favorites.map fun e => e.stationuuid).toFinset) :
    (app.toggle_favorite_for_selected).1.favorite_ids =
      ((app.toggle_favorite_for_selected).1.favorites.map fun e => e.stationuuid).toFinset := by
  cases hsel : app.selected_station with
  | none => rw [toggle_none_eq app hsel]; exact hco
  | some s =>
    obtain ⟨hids, hfavs, -, -, -, -⟩ := toggle_proj app s hsel
    rw [hids, hfavs]
    by_cases hmem : s.stationuuid ∈ app.favorite_ids
    · rw [if_pos hmem, if_pos hmem, hco, map_uuid_filter_ne, List.toFinset_filter]
      simp [Finset.filter_ne']
    · rw [if_neg hmem, if_neg hmem]
      have hhas : hasUuid app.favorites s.stationuuid = false := by
        rw [hasUuid_false_iff]
        intro hin
        exact hmem (hco ▸ List.mem_toFinset.mpr hin)
      unfold upsertFavorite
      rw [hhas]
      simp only [Bool.false_eq_true, if_false, List.map_append, List.toFinset_append,
        List.map_cons, List.map_nil, hco]
      rw [Finset.insert_eq, Finset.union_comm]
      simp

theorem toggle_preserves_nodup (app : App)
    (hco : app.favorite_ids = (app.favorites.map fun e => e.stationuuid).toFinset)
    (hnd : (app.favorites.map fun e => e.stationuuid).Nodup) :
    ((app.toggle_favorite_for_selected).1.favorites.map fun e => e.stationuuid).Nodup := by
  cases hsel : app.selected_station with
  | none => rw [toggle_none_eq app hsel]; exact hnd
  | some s =>
    obtain ⟨-, hfavs, -, -, -, -⟩ := toggle_proj app s hsel
    rw [hfavs]
    by_cases hmem : s.stationuuid ∈ app.favorite_ids
    · rw [if_pos hmem, map_uuid_filter_ne]
      exact hnd.filter _
    · rw [if_neg hmem]
      have hhas : hasUuid app.favorites s.stationuuid = false := by
        rw [hasUuid_false_iff]
        intro hin
        exact hmem (hco ▸ List.mem_toFinset.mpr hin)
      unfold upsertFavorite
      rw [hhas]
      simp only [Bool.false_eq_true, if_false, List.map_append, List.map_cons, List.map_nil]
      refine List.Nodup.append hnd (by simp) ?_
      intro x hx hx'
      rw [List.mem_singleton.mp hx'] at hx
      exact (hasUuid_false_iff _ _).mp hhas hx

theorem app_step_inv {a b : App} (hstep : AppStep a b)
    (ih : a.favorite_ids = (a.favorites.map fun e => e.stationuuid).toFinset ∧
      (a.favorites.map fun e => e.stationuuid).Nodup ∧
      1 ≤ a.page ∧ a.page < U32 ∧ a.total_pages < U32 ∧ a.params.limit < U32 ∧
      a.params.offset = (a.page - 1) * a.params.limit % U32) :
    b.favorite_ids = (b.favorites.map fun e => e.stationuuid).toFinset ∧
      (b.favorites.map fun e => e.stationuuid).Nodup ∧
      1 ≤ b.page ∧ b.page < U32 ∧ b.total_pages < U32 ∧ b.params.limit < U32 ∧
      b.params.offset = (b.page - 1) * b.params.limit % U32 := by
  obtain ⟨hco, hnd, hp1, hpU, htU, hlU, hoff⟩ := ih
  cases hstep with
  | load_favorites fs entries h =>
    refine ⟨rfl, ?_, hp1, hpU, htU, hlU, hoff⟩
    cases fs with
    | absent =>
      unfold load_favorites_from_path at h
      injection h with h
      subst h
      exact List.nodup_nil
    | unreadable => simp [load_favorites_from_path] at h
    | invalidJson => simp [load_favorites_from_path] at h
    | validJson l =>
      unfold load_favorites_from_path at h
      injection h with h
      subst h
      exact (processFavorites_spec l).2.1
  | update_params_from_drafts =>
    refine ⟨hco, hnd, le_refl 1, ?_, htU, hlU, ?_⟩
    · show (1 : Nat) < U32
      norm_num [U32]
    · show (0 : Nat) = (1 - 1) * a.params.limit % U32
      simp
  | set_stations stations =>
    refine ⟨hco, hnd, hp1, hpU, ?_, hlU, hoff⟩
    show (if stations.length % U32 = a.params.limit
        then (a.page + 1) % U32 else a.page) < U32
    split
    · exact Nat.mod_lt _ (by norm_num [U32])
    · exact hpU
  | set_favorite_stations stations => exact ⟨hco, hnd, hp1, hpU, htU, hlU, hoff⟩
  | set_error err => exact ⟨hco, hnd, hp1, hpU, htU, hlU, hoff⟩
  | set_favorites_error err => exact ⟨hco, hnd, hp1, hpU, htU, hlU, hoff⟩
  | toggle_favorite_for_selected =>
    have hfields : a.toggle_favorite_for_selected.1.page = a.page ∧
        a.toggle_favorite_for_selected.1.total_pages = a.total_pages ∧
        a.toggle_favorite_for_selected.1.params = a.params := by
      cases hsel : a.selected_station with
      | none => rw [toggle_none_eq a hsel]; exact ⟨rfl, rfl, rfl⟩
      | some s =>
        obtain ⟨-, -, hpage, htot, hparams, -⟩ := toggle_proj a s hsel
        exact ⟨hpage, htot, hparams⟩
    obtain ⟨hpage, htot, hparams⟩ := hfields
    refine ⟨toggle_preserves_coherence a hco, toggle_preserves_nodup a hco hnd,
      ?_, ?_, ?_, ?_, ?_⟩
    · rw [hpage]; exact hp1
    · rw [hpage]; exact hpU
    · rw [htot]; exact htU
    · rw [hparams]; exact hlU
    · rw [hparams, hpage]; exact hoff
  | set_view_mode mode => exact ⟨hco, hnd, hp1, hpU, htU, hlU, hoff⟩
  | select_next vh =>
    obtain ⟨e1, e2, e3, e4, e5⟩ := select_next_fields a vh
    rw [e1, e2, e3, e4, e5]
    exact ⟨hco, hnd, hp1, hpU, htU, hlU, hoff⟩
  | select_prev =>
    obtain ⟨e1, e2, e3, e4, e5⟩ := select_prev_fields a
    rw [e1, e2, e3, e4, e5]
    exact ⟨hco, hnd, hp1, hpU, htU, hlU, hoff⟩
  | next_page =>
    by_cases hv : a.view_mode ≠ .allStations
    · rw [(next_page_char a).1 hv]
      exact ⟨hco, hnd, hp1, hpU, htU, hlU, hoff⟩
    · by_cases hlt : a.page < a.total_pages
      · rw [(next_page_char a).2.2 (not_not.mp hv) hlt]
        have hlt' : a.page + 1 < U32 := lt_of_le_of_lt hlt htU
        refine ⟨hco, hnd, ?_, ?_, htU, hlU, rfl⟩
        · show 1 ≤ (a.page + 1) % U32
          rw [Nat.mod_eq_of_lt hlt']
          omega
        · exact Nat.mod_lt _ (by norm_num [U32])
      · rw [(next_page_char a).2.1 hlt]
        exact ⟨hco, hnd, hp1, hpU, htU, hlU, hoff⟩
  | prev_page =>
    by_cases hv : a.view_mode ≠ .allStations
    · rw [(prev_page_char a).1 hv]
      exact ⟨hco, hnd, hp1, hpU, htU, hlU, hoff⟩
    · by_cases hlt : 1 < a.page
      · rw [(prev_page_char a).2.2 (not_not.mp hv) hlt]
        refine ⟨hco, hnd, ?_, ?_, htU, hlU, rfl⟩
        · show 1 ≤ a.page - 1
          omega
        · show a.page - 1 < U32
          omega
      · rw [(prev_page_char a).2.1 hlt]
        exact ⟨hco, hnd, hp1, hpU, htU, hlU, hoff⟩
  | next_field => exact ⟨hco, hnd, hp1, hpU, htU, hlU, hoff⟩
  | set_loading b' => exact ⟨hco, hnd, hp1, hpU, htU, hlU, hoff⟩
  | set_favorites_loading b' => exact ⟨hco, hnd, hp1, hpU, htU, hlU, hoff⟩
  | set_mode m => exact ⟨hco, hnd, hp1, hpU, htU, hlU, hoff⟩
  | set_error_field e => exact ⟨hco, hnd, hp1, hpU, htU, hlU, hoff⟩
  | set_favorites_error_field e => exact ⟨hco, hnd, hp1, hpU, htU, hlU, hoff⟩
  | set_current_station s => exact ⟨hco, hnd, hp1, hpU, htU, hlU, hoff⟩
  | set_volume v => exact ⟨hco, hnd, hp1, hpU, htU, hlU, hoff⟩
  | edit_draft_name s => exact ⟨hco, hnd, hp1, hpU, htU, hlU, hoff⟩
  | edit_draft_tags s => exact ⟨hco, hnd, hp1, hpU, htU, hlU, hoff⟩
  | edit_draft_country s => exact ⟨hco, hnd, hp1, hpU, htU, hlU, hoff⟩
  | edit_draft_language s => exact ⟨hco, hnd, hp1, hpU, htU, hlU, hoff⟩

theorem reachable_app_inv (app : App) (h : ReachableApp app) :
    app.favorite_ids = (app.favorites.map fun e => e.stationuuid).toFinset ∧
      (app.favorites.map fun e => e.stationuuid).Nodup ∧
      1 ≤ app.page ∧ app.page < U32 ∧ app.total_pages < U32 ∧
      app.params.limit < U32 ∧
      app.params.offset = (app.page - 1) * app.params.limit % U32 := by
  induction h with
  | init =>
    exact ⟨by simp [App.new], by simp [App.new], by decide, by decide, by decide,
      by decide, by decide⟩
  | step hr hstep ih => exact app_step_inv hstep ih

/-- C5: `favorite_ids` is exactly the identifier projection of `favorites`
in every reachable state, with no duplicate identifiers; `set_favorites`
re-establishes the projection by construction and
`toggle_favorite_for_selected` preserves it; the defensive add branch
updates an existing entry in place, leaving the identifier list and length
unchanged; and every other mutation leaves both fields untouched. -/
theorem favorite_ids_projection :
    (∀ app, ReachableApp app →
      app.favorite_ids = (app.favorites.map fun e => e.stationuuid).toFinset ∧
        (app.favorites.map fun e => e.stationuuid).Nodup) ∧
    (∀ (app : App) favs, (app.set_favorites favs).favorite_ids =
      ((app.set_favorites favs).favorites.map fun e => e.stationuuid).toFinset) ∧
    (∀ app : App,
      app.favorite_ids = (app.favorites.map fun e => e.stationuuid).toFinset →
      (app.toggle_favorite_for_selected).1.favorite_ids =
        ((app.toggle_favorite_for_selected).1.favorites.map
          fun e => e.stationuuid).toFinset) ∧
    (∀ favs (s : Station), hasUuid favs s.stationuuid = true →
      ((upsertFavorite favs s).map fun e => e.stationuuid) =
          (favs.map fun e => e.stationuuid) ∧
        (upsertFavorite favs s).length = favs.length) ∧
    (∀ (app : App) l, (app.set_stations l).favorites = app.favorites ∧
      (app.set_stations l).favorite_ids = app.favorite_ids) ∧
    (∀ (app : App) l, (app.set_favorite_stations l).favorites = app.favorites ∧
      (app.set_favorite_stations l).favorite_ids = app.favorite_ids) ∧
    (∀ (app : App) e, (app.set_error e).favorites = app.favorites ∧
      (app.set_error e).favorite_ids = app.favorite_ids) ∧
    (∀ (app : App) e, (app.set_favorites_error e).favorites = app.favorites ∧
      (app.set_favorites_error e).favorite_ids = app.favorite_ids) ∧
    (∀ app : App, app.update_params_from_drafts.favorites = app.favorites ∧
      app.update_params_from_drafts.favorite_ids = app.favorite_ids) ∧
    (∀ (app : App) m, (app.set_view_mode m).favorites = app.favorites ∧
      (app.set_view_mode m).favorite_ids = app.favorite_ids) ∧
    (∀ (app : App) vh, (app.select_next vh).favorites = app.favorites ∧
      (app.select_next vh).favorite_ids = app.favorite_ids) ∧
    (∀ app : App, app.select_prev.favorites = app.favorites ∧
      app.select_prev.favorite_ids = app.favorite_ids) ∧
    (∀ app : App, app.next_page.favorites = app.favorites ∧
      app.next_page.favorite_ids = app.favorite_ids) ∧
    (∀ app : App, app.prev_page.favorites = app.favorites ∧
      app.prev_page.favorite_ids = app.favorite_ids) ∧
    (∀ app : App, app.next_field.favorites = app.favorites ∧
      app.next_field.favorite_ids = app.favorite_ids) := by
  refine ⟨fun app h => ⟨(reachable_app_inv app h).1, (reachable_app_inv app h).2.1⟩,
    fun app favs => rfl,
    fun app hco => toggle_preserves_coherence app hco,
    fun favs s h => ?_,
    fun app l => ⟨rfl, rfl⟩,
    fun app l => ⟨rfl, rfl⟩,
    fun app e => ⟨rfl, rfl⟩,
    fun app e => ⟨rfl, rfl⟩,
    fun app => ⟨rfl, rfl⟩,
    fun app m => ⟨rfl, rfl⟩,
    fun app vh => ⟨(select_next_fields app vh).1, (select_next_fields app vh).2.1⟩,
    fun app => ⟨(select_prev_fields app).1, (select_prev_fields app).2.1⟩,
    fun app => ?_,
    fun app => ?_,
    fun app => ⟨rfl, rfl⟩⟩
  · have hmap : ((upsertFavorite favs s).map fun e => e.stationuuid) =
        favs.map fun e => e.stationuuid := by
      unfold upsertFavorite
      rw [if_pos h]
      exact updateFirst_map_uuid _ _ _ _
    refine ⟨hmap, ?_⟩
    have := congrArg List.length hmap
    simpa using this
  · by_cases hv : app.view_mode ≠ .allStations <;>
      by_cases hlt : app.page < app.total_pages <;>
      simp [App.next_page, hv, hlt]
  · by_cases hv : app.view_mode ≠ .allStations <;>
      by_cases hlt : 1 < app.page <;>
      simp [App.prev_page, hv, hlt]

/-- Witness for C5: the initial state satisfies the projection invariant,
and re-favoriting an identifier already present updates in place, keeping
the identifier list `["a"]`. -/
theorem favorite_ids_projection_witness :
    (App.new.favorite_ids =
        (App.new.favorites.map fun e => e.stationuuid).toFinset ∧
      (App.new.favorites.map fun e => e.stationuuid).Nodup) ∧
    hasUuid [⟨"a", "Old", "uo"⟩] "a" = true ∧
    ((upsertFavorite [⟨"a", "Old", "uo"⟩]
        ⟨"a", "New", "un", "", "", "", "", 0⟩).map fun e => e.stationuuid) = ["a"] :=
  ⟨favorite_ids_projection.1 App.new ReachableApp.init,
    by decide,
    ((favorite_ids_projection.2.2.2.1 [⟨"a", "Old", "uo"⟩]
        ⟨"a", "New", "un", "", "", "", "", 0⟩ (by decide)).1).trans (by decide)⟩

/-- C7: in every reachable state `params.offset` is the `u32` product
`(page - 1) * limit` (the `% 2 ^ 32` is the `u32` arithmetic of the
source); `update_params_from_drafts` resets `page` to 1 and `offset` to 0;
`next_page`/`prev_page` are no-ops outside the `AllStations` view and at
the page boundaries (page 1, respectively `total_pages`), otherwise step
`page` and re-derive `offset` from it, setting the loading flag; and no
other operation touches `page` or `offset`. -/
theorem pagination_offset_derived :
    (∀ app, ReachableApp app → 1 ≤ app.page ∧
      app.params.offset = (app.page - 1) * app.params.limit % U32) ∧
    (∀ app : App, app.update_params_from_drafts.page = 1 ∧
      app.update_params_from_drafts.params.offset = 0) ∧
    (∀ app : App, app.view_mode ≠ .allStations →
      app.next_page = app ∧ app.prev_page = app) ∧
    (∀ app : App, app.page = app.total_pages → app.next_page = app) ∧
    (∀ app : App, app.page = 1 → app.prev_page = app) ∧
    (∀ app : App, app.view_mode = .allStations → app.page < app.total_pages →
      app.next_page.page = (app.page + 1) % U32 ∧
      app.next_page.params.offset =
        (app.next_page.page - 1) * app.next_page.params.limit % U32 ∧
      app.next_page.loading = true) ∧
    (∀ app : App, app.view_mode = .allStations → 1 < app.page →
      app.prev_page.page = app.page - 1 ∧
      app.prev_page.params.offset =
        (app.prev_page.page - 1) * app.prev_page.params.limit % U32 ∧
      app.prev_page.loading = true) ∧
    (∀ (app : App) l, (app.set_stations l).page = app.page ∧
      (app.set_stations l).params.offset = app.params.offset) ∧
    (∀ (app : App) favs, (app.set_favorites favs).page = app.page ∧
      (app.set_favorites favs).params.offset = app.params.offset) ∧
    (∀ (app : App) l, (app.set_favorite_stations l).page = app.page ∧
      (app.set_favorite_stations l).params.offset = app.params.offset) ∧
    (∀ (app : App) e, (app.set_error e).page = app.page ∧
      (app.set_error e).params.offset = app.params.offset) ∧
    (∀ (app : App) e, (app.set_favorites_error e).page = app.page ∧
      (app.set_favorites_error e).params.offset = app.params.offset) ∧
    (∀ app : App, app.toggle_favorite_for_selected.1.page = app.page ∧
      app.toggle_favorite_for_selected.1.params.offset = app.params.offset) ∧
    (∀ (app : App) m, (app.set_view_mode m).page = app.page ∧
      (app.set_view_mode m).params.offset = app.params.offset) ∧
    (∀ (app : App) vh, (app.select_next vh).page = app.page ∧
      (app.select_next vh).params.offset = app.params.offset) ∧
    (∀ app : App, app.select_prev.page = app.page ∧
      app.select_prev.params.offset = app.params.offset) ∧
    (∀ app : App, app.next_field.page = app.page ∧
      app.next_field.params.offset = app.params.offset) := by
  refine ⟨fun app h => ⟨(reachable_app_inv app h).2.2.1,
      (reachable_app_inv app h).2.2.2.2.2.2⟩,
    fun app => ⟨rfl, rfl⟩,
    fun app h => ⟨(next_page_char app).1 h, (prev_page_char app).1 h⟩,
    fun app h => (next_page_char app).2.1 (by omega),
    fun app h => (prev_page_char app).2.1 (by omega),
    fun app h hlt => ?_,
    fun app h hlt => ?_,
    fun app l => ⟨rfl, rfl⟩,
    fun app favs => ⟨rfl, rfl⟩,
    fun app l => ⟨rfl, rfl⟩,
    fun app e => ⟨rfl, rfl⟩,
    fun app e => ⟨rfl, rfl⟩,
    fun app => ?_,
    fun app m => ⟨rfl, rfl⟩,
    fun app vh => ⟨(select_next_fields app vh).2.2.1,
      congrArg SearchParams.offset (select_next_fields app vh).2.2.2.2⟩,
    fun app => ⟨(select_prev_fields app).2.2.1,
      congrArg SearchParams.offset (select_prev_fields app).2.2.2.2⟩,
    fun app => ⟨rfl, rfl⟩⟩
  · rw [(next_page_char app).2.2 h hlt]
    exact ⟨rfl, rfl, rfl⟩
  · rw [(prev_page_char app).2.2 h hlt]
    exact ⟨rfl, rfl, rfl⟩
  · cases hsel : app.selected_station with
    | none => rw [toggle_none_eq app hsel]; exact ⟨rfl, rfl⟩
    | some s =>
      obtain ⟨-, -, hpage, -, hparams, -⟩ := toggle_proj app s hsel
      exact ⟨hpage, congrArg SearchParams.offset hparams⟩

/-- Witness for C7: the initial state satisfies the derived-offset
invariant and sits at the page-1 boundary, where `prev_page` is the
identity. -/
theorem pagination_offset_derived_witness :
    (1 ≤ App.new.page ∧
      App.new.params.offset = (App.new.page - 1) * App.new.params.limit % U32) ∧
    App.new.page = 1 ∧ App.new.prev_page = App.new :=
  ⟨pagination_offset_derived.1 App.new ReachableApp.init, by decide,
    pagination_offset_derived.2.2.2.2.1 App.new (by decide)⟩

theorem upsertFavorite_of_not_has (favs : List FavoriteEntry) (s : Station)
    (h : hasUuid favs s.stationuuid = false) :
    upsertFavorite favs s =
      favs ++ [{ stationuuid := s.stationuuid, name := s.name, url := s.url }] := by
  unfold upsertFavorite
  rw [if_neg (by simp [h])]

theorem filter_ne_append_perm (l : List FavoriteEntry) (u : String)
    (hnd : (l.map fun e => e.stationuuid).Nodup) (e₀ : FavoriteEntry)
    (he : e₀ ∈ l) (hu : e₀.stationuuid = u) :
    ((l.filter fun f => f.stationuuid ≠ u) ++ [e₀]).Perm l := by
  induction l with
  | nil => cases he
  | cons f rest ih =>
    simp only [List.map_cons, List.nodup_cons] at hnd
    rcases List.mem_cons.mp he with rfl | he
    · rw [List.filter_cons_of_neg (by simp [hu])]
      have hrest : (rest.filter fun f => f.stationuuid ≠ u) = rest := by
        apply List.filter_eq_self.mpr
        intro b hb
        simp only [decide_eq_true_eq]
        intro hbu
        exact hnd.1 (List.mem_map.mpr ⟨b, hb, hbu.trans hu.symm⟩)
      rw [hrest]
      exact List.perm_append_singleton _ _
    · have hfu : f.stationuuid ≠ u := by
        intro hf
        exact hnd.1 (List.mem_map.mpr ⟨e₀, he, hu.trans hf.symm⟩)
      rw [List.filter_cons_of_pos (by simp [hfu])]
      exact (ih hnd.2 he).cons f

/-- C4 counterexample: in `staleApp` a station is selected, the selected
station is unchanged by the first toggle, the state satisfies the
favorites invariants, and the identifier's favorite status is restored by
a double toggle — yet the favorites list is not preserved even up to
ordering, because re-adding rewrites the stored entry with the station's
current (renamed) name and url. -/
theorem toggle_twice_not_content_preserving :
    staleApp.selected_station = some ⟨"u1", "New", "urlNew", "", "", "", "", 0⟩ ∧
    staleApp.toggle_favorite_for_selected.1.selected_station =
      staleApp.selected_station ∧
    staleApp.favorite_ids =
      (staleApp.favorites.map fun e => e.stationuuid).toFinset ∧
    staleApp.toggle_favorite_for_selected.1.toggle_favorite_for_selected.1.is_favorite
        "u1" = staleApp.is_favorite "u1" ∧
    ¬ staleApp.toggle_favorite_for_selected.1.toggle_favorite_for_selected.1.favorites.Perm
        staleApp.favorites := by
  decide

/-- C4 (amended): under the favorites invariants, double-toggling the
unchanged selected station restores `favorite_ids` exactly, and restores
the favorites list up to ordering provided the stored entry for an
already-favorited station carries the station's current name and url (what
the counterexample forces: otherwise the entry is refreshed in place). -/
theorem toggle_twice_restores (app : App) (s : Station)
    (hco : app.favorite_ids = (app.favorites.map fun e => e.stationuuid).toFinset)
    (hnd : (app.favorites.map fun e => e.stationuuid).Nodup)
    (hsel : app.selected_station = some s)
    (hsel' : app.toggle_favorite_for_selected.1.selected_station = some s)
    (hmatch : ∀ e ∈ app.favorites, e.stationuuid = s.stationuuid →
      e.name = s.name ∧ e.url = s.url) :
    app.toggle_favorite_for_selected.1.toggle_favorite_for_selected.1.favorite_ids =
        app.favorite_ids ∧
      app.toggle_favorite_for_selected.1.toggle_favorite_for_selected.1.favorites.Perm
        app.favorites := by
  obtain ⟨hids1, hfavs1, -, -, -, -⟩ := toggle_proj app s hsel
  obtain ⟨hids2, hfavs2, -, -, -, -⟩ := toggle_proj _ s hsel'
  by_cases hmem : s.stationuuid ∈ app.favorite_ids
  · rw [if_pos hmem] at hids1 hfavs1
    have hnotmem1 :
        s.stationuuid ∉ app.toggle_favorite_for_selected.1.favorite_ids := by
      rw [hids1]
      exact Finset.not_mem_erase _ _
    rw [if_neg hnotmem1] at hids2 hfavs2
    have hhas1 :
        hasUuid app.toggle_favorite_for_selected.1.favorites s.stationuuid = false := by
      rw [hasUuid_false_iff, hfavs1, map_uuid_filter_ne]
      simp
    refine ⟨?_, ?_⟩
    · rw [hids2, hids1, Finset.insert_erase hmem]
    · rw [hfavs2, upsertFavorite_of_not_has _ _ hhas1, hfavs1]
      have hin : s.stationuuid ∈ app.favorites.map fun e => e.stationuuid :=
        List.mem_toFinset.mp (hco ▸ hmem)
      obtain ⟨e₀, he₀, he₀u⟩ := List.mem_map.mp hin
      obtain ⟨hname, hurl⟩ := hmatch e₀ he₀ he₀u
      have he₀eq :
          e₀ = { stationuuid := s.stationuuid, name := s.name, url := s.url } := by
        cases e₀
        simp only at he₀u hname hurl
        simp [he₀u, hname, hurl]
      rw [← he₀eq]
      exact filter_ne_append_perm app.favorites s.stationuuid hnd e₀ he₀ he₀u
  · rw [if_neg hmem] at hids1 hfavs1
    have hmem1 : s.stationuuid ∈ app.toggle_favorite_for_selected.1.favorite_ids := by
      rw [hids1]
      exact Finset.mem_insert_self _ _
    rw [if_pos hmem1] at hids2 hfavs2
    have hhas : hasUuid app.favorites s.stationuuid = false := by
      rw [hasUuid_false_iff]
      intro hin
      exact hmem (hco ▸ List.mem_toFinset.mpr hin)
    refine ⟨?_, ?_⟩
    · rw [hids2, hids1, Finset.erase_insert hmem]
    · rw [hfavs2, hfavs1, upsertFavorite_of_not_has _ _ hhas, List.filter_append]
      have hfilter :
          (app.favorites.filter fun fav => fav.stationuuid ≠ s.stationuuid) =
            app.favorites := by
        apply List.filter_eq_self.mpr
        intro e he
        simp only [decide_eq_true_eq]
        intro heu
        exact (hasUuid_false_iff _ _).mp hhas (List.mem_map.mpr ⟨e, he, heu⟩)
      rw [hfilter]
      simp

/-- Witness for the amended C4: toggling a not-yet-favorited station twice
leaves the (empty) favorites list unchanged. -/
theorem toggle_twice_restores_witness :
    freshApp.selected_station = some ⟨"u2", "B", "urlB", "", "", "", "", 0⟩ ∧
    freshApp.toggle_favorite_for_selected.1.toggle_favorite_for_selected.1.favorites.Perm
      freshApp.favorites :=
  ⟨by decide,
    (toggle_twice_restores freshApp ⟨"u2", "B", "urlB", "", "", "", "", 0⟩
      (by decide) (by decide) (by decide) (by decide) (by decide)).2⟩

end Cradio
